import Mathlib

/-!
Shallow embedding of the EFM32 temperature/humidity firmware core
(`scheduler.c`, `sleep_routines.c`, `i2c.c`) and proofs about it.
C `uint32_t` values are modelled as `Nat` with explicit `% 2 ^ 32`
where overflow can occur; the `int` block counters of the sleep
arbiter are modelled as `Int`.  `EFM_ASSERT` conditions are modelled
either as a returned `Bool` flag (sleep arbiter, where the mutation
precedes the assertion in the source) or as an `Option` failure
(I2C interrupt handlers, where a failed assertion halts the ladder).
-/

namespace EFM32

/-- Truncation to a 32-bit unsigned value, as C `uint32_t` arithmetic wraps. -/
def u32 (n : Nat) : Nat := n % 2 ^ 32

/-- C `uint32_t` decrement `x--`, wrapping at zero. -/
def dec32 (n : Nat) : Nat := (n + (2 ^ 32 - 1)) % 2 ^ 32

/-! ## scheduler.c -/

/-- scheduler.c `scheduler_open`: resets `static uint32_t event_scheduled` to 0. -/
def scheduler_open : Nat := 0

/-- scheduler.c `add_scheduled_event`: `event_scheduled |= event`. -/
def add_scheduled_event (event_scheduled event : Nat) : Nat :=
  event_scheduled ||| event

/-- scheduler.c `remove_scheduled_event`: `event_scheduled &= ~event`,
with `~` the 32-bit complement of the `uint32_t` argument. -/
def remove_scheduled_event (event_scheduled event : Nat) : Nat :=
  event_scheduled &&& ((2 ^ 32 - 1) ^^^ event)

/-- scheduler.c `get_scheduled_events`: returns `event_scheduled`. -/
def get_scheduled_events (event_scheduled : Nat) : Nat := event_scheduled

/-! ## sleep_routines.h constants -/

abbrev MAX_ENERGY_MODES : Nat := 5

def EM0 : Nat := 0
def EM1 : Nat := 1
def EM2 : Nat := 2
def EM3 : Nat := 3
def EM4 : Nat := 4

/-- The block-count array `static int lowest_energy_mode[MAX_ENERGY_MODES]`. -/
abbrev SleepState := Fin MAX_ENERGY_MODES → Int

/-- sleep_routines.c `sleep_open`: zeroes every counter. -/
def sleep_open : SleepState := fun _ => 0

/-- sleep_routines.c `sleep_block_mode`: `lowest_energy_mode[EM]++`, then
`EFM_ASSERT(lowest_energy_mode[EM] < 5)`; the assertion outcome is the flag. -/
def sleep_block_mode (s : SleepState) (EM : Fin MAX_ENERGY_MODES) :
    SleepState × Bool :=
  let s2 := Function.update s EM (s EM + 1)
  (s2, decide (s2 EM < 5))

/-- sleep_routines.c `sleep_unblock_mode`: `lowest_energy_mode[EM]--`, then
`EFM_ASSERT(lowest_energy_mode[EM] >= 0)`; the assertion outcome is the flag. -/
def sleep_unblock_mode (s : SleepState) (EM : Fin MAX_ENERGY_MODES) :
    SleepState × Bool :=
  let s2 := Function.update s EM (s EM - 1)
  (s2, decide (0 ≤ s2 EM))

/-- sleep_routines.c `current_block_energy_mode`: `selected_em = EM4`, then the
loop over `i = 0 .. MAX_ENERGY_MODES-1` records, guarded by the `done` flag,
the first `i` with `lowest_energy_mode[i] > 0`. -/
def current_block_energy_mode (s : SleepState) : Nat :=
  ((List.finRange MAX_ENERGY_MODES).foldl
    (fun acc i =>
      if acc.2 then acc
      else if s i > 0 then (i.val, true) else acc)
    (EM4, false)).1

/-- Modelled from the spec for comparison with `current_block_energy_mode`:
"scans from shallowest to deepest and returns the first mode whose counter is
nonzero; if all counters are zero, returns the deepest mode". -/
def first_nonzero_mode (s : SleepState) : Nat :=
  match (List.finRange MAX_ENERGY_MODES).find? (fun i => decide (s i ≠ 0)) with
  | some i => i.val
  | none => EM4

/-! ## i2c.h constants and records -/

def I2C_R : Nat := 1
def I2C_W : Nat := 0

/-- i2c.h: `#define I2C_EM EM2`, as an index into the block-count array. -/
def I2C_EM : Fin MAX_ENERGY_MODES := 2

inductive I2C_COMM_METHOD_TypeDef where
  | I2C_READ
  | I2C_WRITE
deriving DecidableEq, Repr

/-- The `DEFINED_STATES` enum of i2c.c. -/
inductive DEFINED_STATES where
  | sm_init
  | send_register
  | request_read
  | read_data
  | write_data
  | send_stop
  | end_process
deriving DecidableEq, Repr

open I2C_COMM_METHOD_TypeDef DEFINED_STATES

/-- The `I2C_STATE_MACHINE_STRUCT` of i2c.c.  The `uint32_t* data` pointer is
modelled by the `uint32_t` value it points to. -/
structure I2C_STATE_MACHINE_STRUCT where
  current_state : DEFINED_STATES
  which_i2c : Bool
  device_address : Nat
  register_address : Nat
  num_bytes : Nat
  finished_callback : Nat
  comm_method : I2C_COMM_METHOD_TypeDef
  busy : Bool
  data : Nat
  byte_counter : Nat
  num_register_bytes : Nat
  register_byte_counter : Nat
deriving DecidableEq, Repr

/-- The `I2C_START_STRUCT` of i2c.h (again with `data` as the pointed-to value). -/
structure I2C_START_STRUCT where
  which_i2c : Bool
  comm_method : I2C_COMM_METHOD_TypeDef
  device_address : Nat
  register_address : Nat
  num_bytes : Nat
  finished_callback : Nat
  data : Nat
  num_register_bytes : Nat
deriving DecidableEq, Repr

/-- Observable side effects on the bus peripheral and the scheduler, in
program order: writes of `I2C_CMD_START`, `I2C_CMD_STOP`, `I2C_CMD_ACK`,
`I2C_CMD_NACK` to `i2cx->CMD`, writes to `i2cx->TXDATA`, and calls to
`add_scheduled_event`. -/
inductive Action where
  | cmdStart
  | cmdStop
  | cmdAck
  | cmdNack
  | txdata (v : Nat)
  | postEvent (e : Nat)
deriving DecidableEq, Repr

/-- The byte-extraction block repeated verbatim in `i2c_ack_sm`
(i2c.c lines 64-73, 79-88, 98-107, 124-133):
`which_byte = counter - 1; byte_mask = 0xFF << (8*which_byte);`
`data_copy = (value & byte_mask) >> (8*which_byte)`.
All arithmetic is `uint32_t`; shift counts of 32 or more yield 0,
matching the ARM barrel shifter the target compiles to. -/
def tx_byte (value counter : Nat) : Nat :=
  let which_byte := dec32 counter
  let sh := (8 * which_byte) % 2 ^ 32
  let byte_mask := (0xFF <<< sh) % 2 ^ 32
  (value &&& byte_mask) >>> sh

/-- i2c.c `i2c_ack_sm`: the ACK service routine.  Returns the updated machine
and the bus writes it performs; `none` models a failed `EFM_ASSERT`
(a transition outside the design ladder). -/
def i2c_ack_sm (sm : I2C_STATE_MACHINE_STRUCT) :
    Option (I2C_STATE_MACHINE_STRUCT × List Action) :=
  match sm.current_state with
  | sm_init =>
    if sm.register_byte_counter > 0 then
      let b := tx_byte sm.register_address sm.register_byte_counter
      let rc := dec32 sm.register_byte_counter
      some ({ sm with
                current_state := if rc > 0 then sm_init else send_register,
                register_byte_counter := rc },
            [Action.txdata b])
    else
      let b := tx_byte sm.data sm.byte_counter
      some ({ sm with
                current_state := send_register,
                byte_counter := dec32 sm.byte_counter },
            [Action.txdata b])
  | send_register =>
    if sm.comm_method = I2C_READ then
      some ({ sm with current_state := request_read },
            [Action.cmdStart,
             Action.txdata (u32 (sm.device_address <<< 1) ||| I2C_R)])
    else
      let b := tx_byte sm.data sm.byte_counter
      some ({ sm with
                current_state := write_data,
                byte_counter := dec32 sm.byte_counter },
            [Action.txdata b])
  | request_read =>
    if sm.comm_method = I2C_READ then
      some ({ sm with current_state := read_data }, [])
    else none
  | read_data => none
  | write_data =>
    if sm.comm_method = I2C_WRITE then
      if sm.byte_counter > 0 then
        let b := tx_byte sm.data sm.byte_counter
        some ({ sm with byte_counter := dec32 sm.byte_counter },
              [Action.txdata b])
      else
        some ({ sm with current_state := send_stop }, [Action.cmdStop])
    else none
  | send_stop => none
  | end_process => none

/-- i2c.c `i2c_nack_sm`: `EFM_ASSERT(current_state == request_read)`, then
re-issue the repeated START and the read-address byte. -/
def i2c_nack_sm (sm : I2C_STATE_MACHINE_STRUCT) :
    Option (I2C_STATE_MACHINE_STRUCT × List Action) :=
  if sm.current_state = request_read then
    some (sm,
          [Action.cmdStart,
           Action.txdata (u32 (sm.device_address <<< 1) ||| I2C_R)])
  else none

/-- i2c.c `i2c_rxdatav_sm`: reads `RXDATA` (the argument `rxdata`) and either
accumulates it big-endian into `*data` and ACKs (counter still positive), or
discards it and issues NACK then STOP (counter exhausted).  No assertion. -/
def i2c_rxdatav_sm (sm : I2C_STATE_MACHINE_STRUCT) (rxdata : Nat) :
    I2C_STATE_MACHINE_STRUCT × List Action :=
  if sm.byte_counter > 0 then
    ({ sm with
         data := u32 (sm.data <<< 8) ||| rxdata,
         byte_counter := dec32 sm.byte_counter },
     [Action.cmdAck])
  else
    ({ sm with current_state := send_stop },
     [Action.cmdNack, Action.cmdStop])

/-! ## The combined system: one bus machine, the scheduler word and the
sleep-arbiter counters.  The two physical buses run two independent copies of
the same code (`i2c_start` merely selects the context by `which_i2c`), so one
context is modelled. -/

structure SysState where
  sm : I2C_STATE_MACHINE_STRUCT
  event_scheduled : Nat
  lowest_energy_mode : SleepState

/-- i2c.c `i2c_stop_sm`: `EFM_ASSERT(current_state == send_stop)` (modelled by
`none` on failure), then `current_state = end_process`,
`add_scheduled_event(finished_callback)`, `busy = false`,
`sleep_unblock_mode(I2C_EM)` (whose own assertion is again `none` on failure). -/
def i2c_stop_sm (s : SysState) : Option (SysState × List Action) :=
  if s.sm.current_state = send_stop then
    if (sleep_unblock_mode s.lowest_energy_mode I2C_EM).2 then
      some ({ sm := { s.sm with current_state := end_process, busy := false },
              event_scheduled :=
                add_scheduled_event s.event_scheduled s.sm.finished_callback,
              lowest_energy_mode :=
                (sleep_unblock_mode s.lowest_energy_mode I2C_EM).1 },
            [Action.postEvent s.sm.finished_callback])
    else none
  else none

/-- i2c.c `i2c_start`: spin while the context is busy (modelled by `none`:
the call cannot proceed), block `I2C_EM`, fill the context with `busy = true`
and `current_state` the first ladder state, then write `I2C_CMD_START` and the
device address with the write bit.  The `EFM_ASSERT` on the hardware
`i2cx->STATE` register is outside the model; the `sleep_block_mode` assertion
is `none` on failure. -/
def i2c_start (req : I2C_START_STRUCT) (s : SysState) :
    Option (SysState × List Action) :=
  if s.sm.busy then none
  else
    if (sleep_block_mode s.lowest_energy_mode I2C_EM).2 then
      some ({ sm := { current_state := sm_init,
                      which_i2c := req.which_i2c,
                      device_address := req.device_address,
                      register_address := req.register_address,
                      num_bytes := req.num_bytes,
                      finished_callback := req.finished_callback,
                      comm_method := req.comm_method,
                      busy := true,
                      data := req.data,
                      byte_counter := req.num_bytes,
                      num_register_bytes := req.num_register_bytes,
                      register_byte_counter := req.num_register_bytes },
              event_scheduled := s.event_scheduled,
              lowest_energy_mode :=
                (sleep_block_mode s.lowest_energy_mode I2C_EM).1 },
            [Action.cmdStart,
             Action.txdata (u32 (req.device_address <<< 1) ||| I2C_W)])
    else none

/-- One externally visible occurrence: a call to `i2c_start`, or one of the
four bus interrupts dispatched by `i2c_isr` (ACK, NACK, RXDATAV with the
received byte, MSTOP). -/
inductive SysEvent where
  | startCall (req : I2C_START_STRUCT)
  | irqAck
  | irqNack
  | irqRx (b : Nat)
  | irqMstop
deriving DecidableEq, Repr

/-- Dispatch of one occurrence, following `i2c_isr`. -/
def step (s : SysState) : SysEvent → Option (SysState × List Action)
  | SysEvent.startCall req => i2c_start req s
  | SysEvent.irqAck =>
    (i2c_ack_sm s.sm).map (fun p => ({ s with sm := p.1 }, p.2))
  | SysEvent.irqNack =>
    (i2c_nack_sm s.sm).map (fun p => ({ s with sm := p.1 }, p.2))
  | SysEvent.irqRx b =>
    let p := i2c_rxdatav_sm s.sm b
    some ({ s with sm := p.1 }, p.2)
  | SysEvent.irqMstop => i2c_stop_sm s

/-- Run a list of occurrences.  A `none` step (a busy spin that never gets to
proceed, or a failed fatal assertion) halts the run: no further occurrence is
processed.  Returns the final state and, per processed occurrence, the
occurrence and the actions it emitted. -/
def run (s : SysState) : List SysEvent → SysState × List (SysEvent × List Action)
  | [] => (s, [])
  | e :: rest =>
    match step s e with
    | none => (s, [])
    | some (s2, acts) =>
      let r := run s2 rest
      (r.1, (e, acts) :: r.2)

/-- The bus/scheduler actions of a run, flattened in order. -/
def runActions (s : SysState) (evs : List SysEvent) : List Action :=
  ((run s evs).2.map Prod.snd).flatten

/-- A quiescent context as left by `i2c_open` (`busy = false`), with the
scheduler and the sleep arbiter freshly opened. -/
def sys_init : SysState :=
  { sm := { current_state := end_process,
            which_i2c := false,
            device_address := 0,
            register_address := 0,
            num_bytes := 0,
            finished_callback := 0,
            comm_method := I2C_WRITE,
            busy := false,
            data := 0,
            byte_counter := 0,
            num_register_bytes := 0,
            register_byte_counter := 0 },
    event_scheduled := scheduler_open,
    lowest_energy_mode := sleep_open }

/-- Folding a list of received bytes through `i2c_rxdatav_sm` (the state part):
the machine after the bus delivers `bs`, byte by byte. -/
def rx_run (sm : I2C_STATE_MACHINE_STRUCT) (bs : List Nat) :
    I2C_STATE_MACHINE_STRUCT :=
  bs.foldl (fun m b => (i2c_rxdatav_sm m b).1) sm

/-- Modelled from the spec: bytes "accumulated into a single unsigned integer
value" most-significant-byte first (big-endian). -/
def be_accumulate (bs : List Nat) : Nat :=
  bs.foldl (fun a b => (a <<< 8) ||| b) 0

/-- Arithmetic form of big-endian accumulation, used to reason about
`be_accumulate` and the `i2c_rxdatav_sm` fold. -/
def be_arith (bs : List Nat) : Nat :=
  bs.foldl (fun a b => a * 256 + b) 0

/-- A state used as witness input for the sleep-arbiter scan. -/
def wit3 : SleepState := fun i => if i.val = 2 then 3 else if i.val = 4 then 1 else 0

/-- A read-direction machine about to receive the last requested byte
(`byte_counter = 1`) of a 1-byte read. -/
def smRead1 : I2C_STATE_MACHINE_STRUCT :=
  { current_state := read_data,
    which_i2c := false,
    device_address := 0x40,
    register_address := 0xE7,
    num_bytes := 1,
    finished_callback := 0x20,
    comm_method := I2C_READ,
    busy := true,
    data := 0,
    byte_counter := 1,
    num_register_bytes := 1,
    register_byte_counter := 0 }

/-- A read-direction machine in the first ladder state with zero configured
register-address bytes, awaiting the ACK of the device-address byte. -/
def smRead0reg : I2C_STATE_MACHINE_STRUCT :=
  { current_state := sm_init,
    which_i2c := false,
    device_address := 0x40,
    register_address := 0,
    num_bytes := 1,
    finished_callback := 0x20,
    comm_method := I2C_READ,
    busy := true,
    data := 0xAB,
    byte_counter := 1,
    num_register_bytes := 0,
    register_byte_counter := 0 }

/-- A read machine awaiting bytes, used as witness input. -/
def smRead2 : I2C_STATE_MACHINE_STRUCT :=
  { smRead1 with data := 0x12, num_bytes := 2, byte_counter := 2 }

/-- Scenario A request: a 1-byte write of value `0x3B` to the 1-byte register
`0xE6` on device `0x40`, with completion event bit `0x10`. -/
def reqA : I2C_START_STRUCT :=
  { which_i2c := false,
    comm_method := I2C_WRITE,
    device_address := 0x40,
    register_address := 0xE6,
    num_bytes := 1,
    finished_callback := 0x10,
    data := 0x3B,
    num_register_bytes := 1 }

/-- Scenario A occurrences: the start call, the ACKs of the address byte, the
register byte and the data byte, then the stop-detected interrupt. -/
def evsA : List SysEvent :=
  [SysEvent.startCall reqA, SysEvent.irqAck, SysEvent.irqAck,
   SysEvent.irqAck, SysEvent.irqMstop]

/-- Scenario A run twice: a second `i2c_start` call follows the completed
first transaction. -/
def evsTwice : List SysEvent := evsA ++ [SysEvent.startCall reqA]

/-- A bus context mid-transaction (`busy` held). -/
def sysBusy : SysState :=
  { sys_init with sm := { sys_init.sm with busy := true } }

/-- The system right after `i2c_start reqA` from the quiescent state. -/
def sysA1 : SysState :=
  ((i2c_start reqA sys_init).getD (sys_init, [])).1

/-- A busy context that has issued its STOP command (one sleep block held),
awaiting the stop-detected interrupt. -/
def sysSendStop : SysState :=
  { sys_init with
      sm := { sys_init.sm with current_state := send_stop, busy := true,
                               finished_callback := 0x10 },
      lowest_energy_mode := Function.update sleep_open I2C_EM 1 }

/-- The system after the stop handler runs on `sysSendStop`. -/
def sysStopRes : SysState :=
  ((i2c_stop_sm sysSendStop).getD (sysSendStop, [])).1

/-! ## Helper lemmas: sleep arbiter -/

/-- Once the `done` flag of the `current_block_energy_mode` loop is set, the
remaining iterations change nothing. -/
theorem cbem_foldl_done (s : SleepState) (l : List (Fin MAX_ENERGY_MODES))
    (x : Nat) :
    l.foldl
      (fun acc i => if acc.2 then acc else if s i > 0 then (i.val, true) else acc)
      (x, true) = (x, true) := by
  induction l with
  | nil => rfl
  | cons a l ih => simpa using ih

/-- The `current_block_energy_mode` loop computes the first index with a
positive counter, which for nonnegative counters is the first nonzero one. -/
theorem cbem_foldl_spec (s : SleepState) (h : ∀ i, 0 ≤ s i)
    (l : List (Fin MAX_ENERGY_MODES)) (x : Nat) :
    (l.foldl
      (fun acc i => if acc.2 then acc else if s i > 0 then (i.val, true) else acc)
      (x, false)).1
      = match l.find? (fun i => decide (s i ≠ 0)) with
        | some i => i.val
        | none => x := by
  induction l generalizing x with
  | nil => rfl
  | cons a l ih =>
    simp only [List.foldl_cons, List.find?_cons]
    by_cases ha : s a > 0
    · have hne : decide (s a ≠ 0) = true := by simp [ha.ne']
      rw [hne]
      simp [ha, cbem_foldl_done]
    · have h0 : s a = 0 := le_antisymm (not_lt.mp ha) (h a)
      have hne : decide (s a ≠ 0) = false := by simp [h0]
      rw [hne]
      simp only [show ((x, false).2 = true) = False by simp, if_false, if_neg ha]
      exact ih x

/-- Iterating the state effect of `sleep_block_mode` adds `N` to one counter. -/
theorem block_iterate (s : SleepState) (m : Fin MAX_ENERGY_MODES) (N : Nat) :
    (fun st => (sleep_block_mode st m).1)^[N] s
      = Function.update s m (s m + N) := by
  induction N with
  | zero => simp
  | succ n ih =>
    rw [Function.iterate_succ_apply', ih]
    simp only [sleep_block_mode, Function.update_same, Function.update_idem]
    push_cast
    ring_nf

/-- Iterating the state effect of `sleep_unblock_mode` subtracts `N`. -/
theorem unblock_iterate (s : SleepState) (m : Fin MAX_ENERGY_MODES) (N : Nat) :
    (fun st => (sleep_unblock_mode st m).1)^[N] s
      = Function.update s m (s m - N) := by
  induction N with
  | zero => simp
  | succ n ih =>
    rw [Function.iterate_succ_apply', ih]
    simp only [sleep_unblock_mode, Function.update_same, Function.update_idem]
    push_cast
    ring_nf

/-! ## Claim theorems: sleep arbiter and scheduler -/

/-- C3: for every block-count state (nonnegative counters, the invariant the
fatal assertions maintain), `current_block_energy_mode` returns the first
mode, scanning from EM0 to EM4, whose counter is nonzero, and EM4 when all
five counters are zero — i.e. it agrees with the spec-modelled
`first_nonzero_mode`. -/
theorem C3_deepest_allowed (s : SleepState) (h : ∀ i, 0 ≤ s i) :
    current_block_energy_mode s = first_nonzero_mode s := by
  unfold current_block_energy_mode first_nonzero_mode
  exact cbem_foldl_spec s h _ _


theorem C3_deepest_allowed_witness :
    (∀ i : Fin MAX_ENERGY_MODES, 0 ≤ wit3 i) ∧
    current_block_energy_mode wit3 = first_nonzero_mode wit3 ∧
    current_block_energy_mode wit3 = EM2 :=
  ⟨by decide, C3_deepest_allowed wit3 (by decide), by decide⟩

/-- C5: for every mode, starting state and `N`, the state effect of `N`
`sleep_block_mode` calls followed by `N` `sleep_unblock_mode` calls restores
the counters exactly; and if the mode's counter started at zero, an
`(N+1)`-th unblock violates the `lowest_energy_mode[EM] >= 0` assertion of
`sleep_unblock_mode` (its flag is `false`). -/
theorem C5_block_unblock_roundtrip (m : Fin MAX_ENERGY_MODES) (s : SleepState)
    (N : Nat) :
    (fun st => (sleep_unblock_mode st m).1)^[N]
        ((fun st => (sleep_block_mode st m).1)^[N] s) = s ∧
    (s m = 0 →
      (sleep_unblock_mode
        ((fun st => (sleep_unblock_mode st m).1)^[N]
          ((fun st => (sleep_block_mode st m).1)^[N] s)) m).2 = false) := by
  have key : (fun st => (sleep_unblock_mode st m).1)^[N]
      ((fun st => (sleep_block_mode st m).1)^[N] s) = s := by
    rw [block_iterate, unblock_iterate]
    simp [Function.update_same, Function.update_idem]
  refine ⟨key, fun h0 => ?_⟩
  rw [key]
  simp [sleep_unblock_mode, Function.update_same, h0]

theorem C5_block_unblock_roundtrip_witness :
    ((fun st => (sleep_unblock_mode st (2 : Fin MAX_ENERGY_MODES)).1)^[3]
        ((fun st => (sleep_block_mode st (2 : Fin MAX_ENERGY_MODES)).1)^[3]
          sleep_open) = sleep_open) ∧
    (sleep_unblock_mode
        ((fun st => (sleep_unblock_mode st (2 : Fin MAX_ENERGY_MODES)).1)^[3]
          ((fun st => (sleep_block_mode st (2 : Fin MAX_ENERGY_MODES)).1)^[3]
            sleep_open)) (2 : Fin MAX_ENERGY_MODES)).2 = false := by
  have h := C5_block_unblock_roundtrip (2 : Fin MAX_ENERGY_MODES) sleep_open 3
  exact ⟨h.1, h.2 rfl⟩

/-- C10: from a zero counter, the state effect of `k` `sleep_block_mode`
calls leaves counter `k`, so the assertion `lowest_energy_mode[EM] < 5`
holds on the first four calls and fails on the fifth. -/
theorem C10_block_bound (m : Fin MAX_ENERGY_MODES) :
    (sleep_block_mode
      ((fun st => (sleep_block_mode st m).1)^[0] sleep_open) m).2 = true ∧
    (sleep_block_mode
      ((fun st => (sleep_block_mode st m).1)^[1] sleep_open) m).2 = true ∧
    (sleep_block_mode
      ((fun st => (sleep_block_mode st m).1)^[2] sleep_open) m).2 = true ∧
    (sleep_block_mode
      ((fun st => (sleep_block_mode st m).1)^[3] sleep_open) m).2 = true ∧
    (sleep_block_mode
      ((fun st => (sleep_block_mode st m).1)^[4] sleep_open) m).2 = false := by
  have hk : ∀ k : Nat,
      (sleep_block_mode
        ((fun st => (sleep_block_mode st m).1)^[k] sleep_open) m).2
        = decide ((k : Int) + 1 < 5) := by
    intro k
    rw [block_iterate]
    simp [sleep_block_mode, sleep_open, Function.update_same,
          Function.update_idem]
  refine ⟨?_, ?_, ?_, ?_, ?_⟩ <;> rw [hk] <;> decide

theorem C10_block_bound_witness :
    (sleep_block_mode
      ((fun st => (sleep_block_mode st (2 : Fin MAX_ENERGY_MODES)).1)^[3]
        sleep_open) (2 : Fin MAX_ENERGY_MODES)).2 = true ∧
    (sleep_block_mode
      ((fun st => (sleep_block_mode st (2 : Fin MAX_ENERGY_MODES)).1)^[4]
        sleep_open) (2 : Fin MAX_ENERGY_MODES)).2 = false :=
  ⟨(C10_block_bound (2 : Fin MAX_ENERGY_MODES)).2.2.2.1,
   (C10_block_bound (2 : Fin MAX_ENERGY_MODES)).2.2.2.2⟩

/-- C8: posting an event bit any number of times equals posting it once;
after `remove_scheduled_event` the pending mask has no bit of the event left;
and both operations leave every bit outside the event unchanged. -/
theorem C8_scheduler_bitset (s e : Nat) (hs : s < 2 ^ 32) (he : e < 2 ^ 32) :
    (∀ n : Nat, (fun x => add_scheduled_event x e)^[n + 1] s
        = add_scheduled_event s e) ∧
    get_scheduled_events (remove_scheduled_event s e) &&& e = 0 ∧
    (∀ i : Nat, e.testBit i = false →
      (add_scheduled_event s e).testBit i = s.testBit i ∧
      (remove_scheduled_event s e).testBit i = s.testBit i) := by
  have hp : ∀ i : Nat, 32 ≤ i → s.testBit i = false := by
    intro i hi
    exact Nat.testBit_lt_two_pow
      (lt_of_lt_of_le hs (Nat.pow_le_pow_right (by norm_num) hi))
  refine ⟨?_, ?_, ?_⟩
  · intro n
    induction n with
    | zero => rfl
    | succ k ih =>
      rw [Function.iterate_succ_apply', ih]
      simp only [add_scheduled_event, Nat.lor_assoc, Nat.or_self]
  · apply Nat.eq_of_testBit_eq
    intro i
    simp only [get_scheduled_events, remove_scheduled_event, Nat.testBit_land,
               Nat.testBit_xor, Nat.testBit_two_pow_sub_one, Nat.zero_testBit]
    rcases Nat.lt_or_ge i 32 with hi | hi
    · have hd : decide (i < 32) = true := by
        simp only [decide_eq_true_eq]; omega
      rw [hd]
      cases hsb : s.testBit i <;> cases heb : e.testBit i <;> rfl
    · have hd : decide (i < 32) = false := by
        simp only [decide_eq_false_iff_not]; omega
      rw [hd]
      simp [hp i hi]
  · intro i hei
    constructor
    · simp [add_scheduled_event, Nat.testBit_lor, hei]
    · simp only [remove_scheduled_event, Nat.testBit_land, Nat.testBit_xor,
                 Nat.testBit_two_pow_sub_one, hei]
      rcases Nat.lt_or_ge i 32 with hi | hi
      · have hd : decide (i < 32) = true := by
          simp only [decide_eq_true_eq]; omega
        rw [hd]
        cases hsb : s.testBit i <;> rfl
      · have hd : decide (i < 32) = false := by
          simp only [decide_eq_false_iff_not]; omega
        rw [hd]
        simp [hp i hi]

theorem C8_scheduler_bitset_witness :
    ((fun x => add_scheduled_event x 6)^[2] 5 = add_scheduled_event 5 6) ∧
    get_scheduled_events (remove_scheduled_event 5 6) &&& 6 = 0 ∧
    ((6 : Nat).testBit 0 = false →
      (add_scheduled_event 5 6).testBit 0 = (5 : Nat).testBit 0 ∧
      (remove_scheduled_event 5 6).testBit 0 = (5 : Nat).testBit 0) := by
  have h := C8_scheduler_bitset 5 6 (by norm_num) (by norm_num)
  exact ⟨h.1 1, h.2.1, h.2.2 0⟩

/-! ## Helper lemmas: the read data path -/

/-- For an in-range positive `uint32_t`, the wrapping decrement is minus one. -/
theorem dec32_pred (c : Nat) (h0 : 0 < c) (h1 : c < 2 ^ 32) :
    dec32 c = c - 1 := by
  unfold dec32
  omega

/-- One shift-and-or accumulation step on a byte below 256 is arithmetic. -/
theorem shift_or_step (a b : Nat) (hb : b < 256) :
    (a <<< 8) ||| b = a * 256 + b := by
  rw [Nat.shiftLeft_eq, Nat.mul_comm a (2 ^ 8),
      ← Nat.mul_add_lt_is_or (show b < 2 ^ 8 from by omega)]

/-- One byte-received step on a positive counter, arithmetically. -/
theorem rx_step_arith (d b : Nat) (hb : b < 256) :
    u32 (d <<< 8) ||| b = (d * 256 + b) % 2 ^ 32 := by
  have e2 : u32 (d <<< 8) = 2 ^ 8 * (d % 2 ^ 24) := by
    rw [Nat.shiftLeft_eq, u32, Nat.mul_comm d (2 ^ 8),
        show (2 : Nat) ^ 32 = 2 ^ 8 * 2 ^ 24 from by norm_num,
        Nat.mul_mod_mul_left]
  rw [e2, ← Nat.mul_add_lt_is_or (show b < 2 ^ 8 from by omega)]
  have hq := Nat.div_add_mod d (2 ^ 24)
  have hr : d % 2 ^ 24 < 2 ^ 24 := Nat.mod_lt _ (by norm_num)
  have e3 : d * 256 = 2 ^ 8 * (d % 2 ^ 24) + 2 ^ 32 * (d / 2 ^ 24) := by
    conv_lhs => rw [← hq]
    ring
  calc 2 ^ 8 * (d % 2 ^ 24) + b
      = (2 ^ 8 * (d % 2 ^ 24) + b) % 2 ^ 32 := (Nat.mod_eq_of_lt (by omega)).symm
    _ = (2 ^ 8 * (d % 2 ^ 24) + b + 2 ^ 32 * (d / 2 ^ 24)) % 2 ^ 32 := by
        rw [Nat.add_mul_mod_self_left]
    _ = (d * 256 + b) % 2 ^ 32 := by rw [e3]; ring_nf

/-- Folding the arithmetic accumulator from an arbitrary start. -/
theorem be_arith_from (bs : List Nat) :
    ∀ acc : Nat, bs.foldl (fun a b => a * 256 + b) acc
      = acc * 256 ^ bs.length + be_arith bs := by
  induction bs with
  | nil => intro acc; simp [be_arith]
  | cons b bs ih =>
    intro acc
    have hcons : be_arith (b :: bs) = b * 256 ^ bs.length + be_arith bs := by
      show List.foldl (fun a b => a * 256 + b) (0 * 256 + b) bs = _
      rw [show 0 * 256 + b = b from by ring, ih b]
    simp only [List.foldl_cons, List.length_cons]
    rw [ih (acc * 256 + b), hcons]
    ring

/-- With in-range bytes, big-endian shift/or folding is arithmetic folding. -/
theorem be_or_arith_fold (bs : List Nat) :
    ∀ acc : Nat, (∀ b ∈ bs, b < 256) →
      bs.foldl (fun a b => (a <<< 8) ||| b) acc
        = bs.foldl (fun a b => a * 256 + b) acc := by
  induction bs with
  | nil => intro acc _; rfl
  | cons b bs ih =>
    intro acc hb
    have hb0 : b < 256 := hb b (List.mem_cons_self b bs)
    simp only [List.foldl_cons, shift_or_step acc b hb0]
    exact ih (acc * 256 + b) (fun x hx => hb x (List.mem_cons_of_mem b hx))

/-- The shift/or big-endian accumulator agrees with the arithmetic one. -/
theorem be_accumulate_eq_arith (bs : List Nat) (hb : ∀ b ∈ bs, b < 256) :
    be_accumulate bs = be_arith bs :=
  be_or_arith_fold bs 0 hb

/-- The arithmetic accumulation of `n` bytes below 256 is below `256 ^ n`. -/
theorem be_arith_lt (bs : List Nat) :
    (∀ b ∈ bs, b < 256) → be_arith bs < 256 ^ bs.length := by
  induction bs with
  | nil => intro _; simp [be_arith]
  | cons b bs ih =>
    intro hb
    have hb0 : b < 256 := hb b (List.mem_cons_self b bs)
    have ihb := ih (fun x hx => hb x (List.mem_cons_of_mem b hx))
    have hcons : be_arith (b :: bs) = b * 256 ^ bs.length + be_arith bs := by
      show List.foldl (fun a b => a * 256 + b) (0 * 256 + b) bs = _
      rw [show 0 * 256 + b = b from by ring, be_arith_from bs b]
    rw [hcons]
    calc b * 256 ^ bs.length + be_arith bs
        < b * 256 ^ bs.length + 256 ^ bs.length := by omega
      _ = (b + 1) * 256 ^ bs.length := by ring
      _ ≤ 256 * 256 ^ bs.length := Nat.mul_le_mul_right _ (by omega)
      _ = 256 ^ (b :: bs).length := by
          rw [List.length_cons]; ring

/-- Structural facts about `rx_run` while the counter lasts: the counter
drops by the number of delivered bytes and the ladder state is untouched. -/
theorem rx_run_struct (bs : List Nat) :
    ∀ sm : I2C_STATE_MACHINE_STRUCT, bs.length ≤ sm.byte_counter →
      sm.byte_counter < 2 ^ 32 →
      (rx_run sm bs).byte_counter = sm.byte_counter - bs.length ∧
      (rx_run sm bs).current_state = sm.current_state ∧
      (rx_run sm bs).byte_counter < 2 ^ 32 := by
  induction bs with
  | nil => intro sm _ hc; exact ⟨rfl, rfl, hc⟩
  | cons b bs ih =>
    intro sm hn hc
    have hpos : 0 < sm.byte_counter := by
      simp only [List.length_cons] at hn; omega
    have hstep : i2c_rxdatav_sm sm b
        = ({ sm with data := u32 (sm.data <<< 8) ||| b,
                     byte_counter := dec32 sm.byte_counter },
           [Action.cmdAck]) := by
      simp [i2c_rxdatav_sm, hpos]
    have hrw : rx_run sm (b :: bs)
        = rx_run { sm with data := u32 (sm.data <<< 8) ||| b,
                           byte_counter := dec32 sm.byte_counter } bs := by
      simp [rx_run, hstep]
    rw [hrw]
    have hdec := dec32_pred sm.byte_counter hpos hc
    have := ih { sm with data := u32 (sm.data <<< 8) ||| b,
                         byte_counter := dec32 sm.byte_counter }
      (by simp only [List.length_cons] at hn; simp [hdec]; omega)
      (by simp [hdec]; omega)
    simp only [List.length_cons]
    refine ⟨?_, this.2⟩
    rw [this.1]
    simp [hdec]
    omega

/-- The destination value after `rx_run`, arithmetically. -/
theorem rx_run_data_arith (bs : List Nat) :
    ∀ sm : I2C_STATE_MACHINE_STRUCT, (∀ b ∈ bs, b < 256) →
      bs.length ≤ sm.byte_counter → sm.byte_counter < 2 ^ 32 →
      sm.data < 2 ^ 32 →
      (rx_run sm bs).data
        = (sm.data * 256 ^ bs.length + be_arith bs) % 2 ^ 32 := by
  induction bs with
  | nil =>
    intro sm _ _ _ hd
    show sm.data = (sm.data * 256 ^ 0 + be_arith []) % 2 ^ 32
    rw [show sm.data * 256 ^ 0 + be_arith [] = sm.data from by simp [be_arith],
        Nat.mod_eq_of_lt hd]
  | cons b bs ih =>
    intro sm hb hn hc hd
    have hpos : 0 < sm.byte_counter := by
      simp only [List.length_cons] at hn; omega
    have hb0 : b < 256 := hb b (List.mem_cons_self b bs)
    have hstep : i2c_rxdatav_sm sm b
        = ({ sm with data := u32 (sm.data <<< 8) ||| b,
                     byte_counter := dec32 sm.byte_counter },
           [Action.cmdAck]) := by
      simp [i2c_rxdatav_sm, hpos]
    have hrw : rx_run sm (b :: bs)
        = rx_run { sm with data := u32 (sm.data <<< 8) ||| b,
                           byte_counter := dec32 sm.byte_counter } bs := by
      simp [rx_run, hstep]
    have hdec := dec32_pred sm.byte_counter hpos hc
    have hdata : u32 (sm.data <<< 8) ||| b = (sm.data * 256 + b) % 2 ^ 32 :=
      rx_step_arith sm.data b hb0
    have hlt : (sm.data * 256 + b) % 2 ^ 32 < 2 ^ 32 :=
      Nat.mod_lt _ (by norm_num)
    rw [hrw,
        ih { sm with data := u32 (sm.data <<< 8) ||| b,
                     byte_counter := dec32 sm.byte_counter }
          (fun x hx => hb x (List.mem_cons_of_mem b hx))
          (by simp only [List.length_cons] at hn; simp [hdec]; omega)
          (by simp [hdec]; omega)
          (by simp only [hdata]; exact hlt)]
    simp only [hdata]
    have hmod : ((sm.data * 256 + b) % 2 ^ 32) * 256 ^ bs.length + be_arith bs
        ≡ (sm.data * 256 + b) * 256 ^ bs.length + be_arith bs [MOD 2 ^ 32] :=
      ((Nat.mod_modEq (sm.data * 256 + b) (2 ^ 32)).mul_right
        (256 ^ bs.length)).add_right (be_arith bs)
    have hmod2 : (((sm.data * 256 + b) % 2 ^ 32) * 256 ^ bs.length
          + be_arith bs) % 2 ^ 32
        = ((sm.data * 256 + b) * 256 ^ bs.length + be_arith bs) % 2 ^ 32 := hmod
    rw [hmod2]
    have hcons : be_arith (b :: bs) = b * 256 ^ bs.length + be_arith bs := by
      show List.foldl (fun a b => a * 256 + b) (0 * 256 + b) bs = _
      rw [show 0 * 256 + b = b from by ring, be_arith_from bs b]
    have inner : (sm.data * 256 + b) * 256 ^ bs.length + be_arith bs
        = sm.data * 256 ^ (b :: bs).length + be_arith (b :: bs) := by
      rw [hcons, List.length_cons]
      ring
    rw [inner]

/-! ## Claim theorems: I2C handlers (single interrupts) -/

/-- C7: a NACK interrupt while in `request_read` re-issues the repeated START
and the read-address byte (a retry, with the state left in `request_read`);
a NACK in any other state fails the `EFM_ASSERT` (fatal halt, `none`). -/
theorem C7_nack_retry (sm : I2C_STATE_MACHINE_STRUCT) :
    (sm.current_state = request_read →
      i2c_nack_sm sm
        = some (sm, [Action.cmdStart,
                     Action.txdata (u32 (sm.device_address <<< 1) ||| I2C_R)])) ∧
    (sm.current_state ≠ request_read → i2c_nack_sm sm = none) := by
  constructor <;> intro h <;> simp [i2c_nack_sm, h]

theorem C7_nack_retry_witness :
    ({ smRead1 with current_state := request_read }.current_state
        = request_read →
      i2c_nack_sm { smRead1 with current_state := request_read }
        = some ({ smRead1 with current_state := request_read },
                [Action.cmdStart,
                 Action.txdata
                   (u32 ({ smRead1 with current_state := request_read
                         }.device_address <<< 1) ||| I2C_R)])) ∧
    (smRead1.current_state ≠ request_read → i2c_nack_sm smRead1 = none) :=
  ⟨(C7_nack_retry { smRead1 with current_state := request_read }).1,
   (C7_nack_retry smRead1).2⟩

/-- C2 counterexample: the machine `smRead1` is a 1-byte read about to
receive its last (n-th, n = 1) requested byte; the code ACKs that byte and
stays out of `send_stop`, while the claim requires NACK, STOP and
`send_stop` in response to the n-th byte. -/
theorem C2_last_byte_counterexample :
    (i2c_rxdatav_sm smRead1 0x56).2 = [Action.cmdAck] ∧
    (i2c_rxdatav_sm smRead1 0x56).1.current_state ≠ send_stop ∧
    (i2c_rxdatav_sm smRead1 0x56).1.byte_counter = 0 ∧
    Action.cmdNack ∉ (i2c_rxdatav_sm smRead1 0x56).2 := by
  refine ⟨?_, ?_, ?_, ?_⟩ <;> decide

/-- C2 (amended): every byte-received interrupt that arrives with a nonzero
remaining-byte counter — including the n-th, last requested byte —
accumulates the byte big-endian, decrements the counter and answers ACK;
the NACK followed by STOP is issued on the next byte-received interrupt,
which arrives with the counter at zero, discards its byte, and moves the
machine to `send_stop`. -/
theorem C2_rxdatav_amended (sm : I2C_STATE_MACHINE_STRUCT) (bs : List Nat)
    (b : Nat) (hn : sm.byte_counter = bs.length)
    (hc : sm.byte_counter < 2 ^ 32) :
    (∀ pre b2 post, bs = pre ++ b2 :: post →
      (i2c_rxdatav_sm (rx_run sm pre) b2).2 = [Action.cmdAck]) ∧
    (rx_run sm bs).byte_counter = 0 ∧
    (rx_run sm bs).current_state = sm.current_state ∧
    i2c_rxdatav_sm (rx_run sm bs) b
      = ({ rx_run sm bs with current_state := send_stop },
         [Action.cmdNack, Action.cmdStop]) := by
  have hmain := rx_run_struct bs sm (le_of_eq hn.symm) hc
  refine ⟨?_, ?_, hmain.2.1, ?_⟩
  · intro pre b2 post hsplit
    have hpre : pre.length ≤ sm.byte_counter := by
      subst hsplit
      simp only [List.length_append, List.length_cons] at hn
      omega
    have hstruct := rx_run_struct pre sm hpre hc
    have hpos : 0 < (rx_run sm pre).byte_counter := by
      rw [hstruct.1]
      subst hsplit
      simp only [List.length_append, List.length_cons] at hn
      omega
    simp [i2c_rxdatav_sm, hpos]
  · rw [hmain.1, hn]
    omega
  · have hzero : (rx_run sm bs).byte_counter = 0 := by rw [hmain.1, hn]; omega
    simp [i2c_rxdatav_sm, hzero]

theorem C2_rxdatav_amended_witness :
    ((i2c_rxdatav_sm (rx_run smRead2 [0x56]) 0x78).2 = [Action.cmdAck]) ∧
    (rx_run smRead2 [0x56, 0x78]).byte_counter = 0 ∧
    (rx_run smRead2 [0x56, 0x78]).current_state = smRead2.current_state ∧
    i2c_rxdatav_sm (rx_run smRead2 [0x56, 0x78]) 0x99
      = ({ rx_run smRead2 [0x56, 0x78] with current_state := send_stop },
         [Action.cmdNack, Action.cmdStop]) := by
  have h := C2_rxdatav_amended smRead2 [0x56, 0x78] 0x99 rfl (by decide)
  exact ⟨h.1 [0x56] 0x78 [] rfl, h.2.1, h.2.2.1, h.2.2.2⟩

/-- C4 counterexample: `smRead0reg` is a read transaction with zero
register-address bytes at its first ACK; the code transmits one byte of the
caller's destination buffer (`0xAB`) and moves to `send_register` — it does
not issue the repeated START and read address the claim requires. -/
theorem C4_zero_reg_read_counterexample :
    i2c_ack_sm smRead0reg
      = some ({ smRead0reg with current_state := send_register,
                                byte_counter := 0 },
              [Action.txdata 0xAB]) ∧
    Action.cmdStart ∉ [Action.txdata 0xAB] := by
  refine ⟨?_, ?_⟩ <;> decide

/-- C4 (amended): on the first ACK, with at least one register-address byte
configured the engine transmits register-address bytes MSB-first (staying in
the first state while more remain); with zero register-address bytes
configured, read and write transactions alike transmit one data-buffer byte
and enter `send_register`; a read transaction issues its repeated-START read
request only on the subsequent ACK, from `send_register`. -/
theorem C4_first_ack_amended (sm : I2C_STATE_MACHINE_STRUCT)
    (hst : sm.current_state = sm_init) :
    (sm.register_byte_counter > 0 →
      i2c_ack_sm sm
        = some ({ sm with
                    current_state :=
                      if dec32 sm.register_byte_counter > 0 then sm_init
                      else send_register,
                    register_byte_counter := dec32 sm.register_byte_counter },
                [Action.txdata (tx_byte sm.register_address
                                  sm.register_byte_counter)])) ∧
    (sm.register_byte_counter = 0 →
      i2c_ack_sm sm
        = some ({ sm with
                    current_state := send_register,
                    byte_counter := dec32 sm.byte_counter },
                [Action.txdata (tx_byte sm.data sm.byte_counter)])) ∧
    (sm.register_byte_counter = 0 → sm.comm_method = I2C_READ →
      ∀ sm2 acts, i2c_ack_sm sm = some (sm2, acts) →
        i2c_ack_sm sm2
          = some ({ sm2 with current_state := request_read },
                  [Action.cmdStart,
                   Action.txdata (u32 (sm.device_address <<< 1) ||| I2C_R)])) := by
  have hzero : sm.register_byte_counter = 0 →
      i2c_ack_sm sm
        = some ({ sm with
                    current_state := send_register,
                    byte_counter := dec32 sm.byte_counter },
                [Action.txdata (tx_byte sm.data sm.byte_counter)]) := by
    intro h
    simp [i2c_ack_sm, hst, h]
  refine ⟨fun h => ?_, hzero, fun h hrd sm2 acts hs => ?_⟩
  · simp [i2c_ack_sm, hst, h]
  · have hXe : ({ sm with current_state := send_register,
                          byte_counter := dec32 sm.byte_counter },
                [Action.txdata (tx_byte sm.data sm.byte_counter)])
        = (sm2, acts) := Option.some.inj ((hzero h).symm.trans hs)
    have hX : sm2 = { sm with current_state := send_register,
                              byte_counter := dec32 sm.byte_counter } :=
      (congrArg Prod.fst hXe).symm
    subst hX
    simp [i2c_ack_sm, hrd]

theorem C4_first_ack_amended_witness :
    (smRead0reg.register_byte_counter = 0 →
      i2c_ack_sm smRead0reg
        = some ({ smRead0reg with
                    current_state := send_register,
                    byte_counter := dec32 smRead0reg.byte_counter },
                [Action.txdata (tx_byte smRead0reg.data
                                  smRead0reg.byte_counter)])) ∧
    (smRead0reg.register_byte_counter = 0 →
      smRead0reg.comm_method = I2C_READ →
      ∀ sm2 acts, i2c_ack_sm smRead0reg = some (sm2, acts) →
        i2c_ack_sm sm2
          = some ({ sm2 with current_state := request_read },
                  [Action.cmdStart,
                   Action.txdata
                     (u32 (smRead0reg.device_address <<< 1) ||| I2C_R)])) :=
  ⟨(C4_first_ack_amended smRead0reg rfl).2.1,
   (C4_first_ack_amended smRead0reg rfl).2.2⟩

/-- C9: the read path never clears the destination: after delivering the
`n` requested bytes, the destination holds the old value shifted up by
`8n` bits, or-ed with the big-endian accumulation of the bytes, truncated
to 32 bits. -/
theorem C9_read_accumulation (sm : I2C_STATE_MACHINE_STRUCT) (bs : List Nat)
    (hb : ∀ b ∈ bs, b < 256) (hn : sm.byte_counter = bs.length)
    (hc : sm.byte_counter < 2 ^ 32) (hd : sm.data < 2 ^ 32) :
    (rx_run sm bs).data
      = (sm.data <<< (8 * bs.length) ||| be_accumulate bs) % 2 ^ 32 := by
  rw [rx_run_data_arith bs sm hb (le_of_eq hn.symm) hc hd]
  have hsh : sm.data <<< (8 * bs.length) = 2 ^ (8 * bs.length) * sm.data := by
    rw [Nat.shiftLeft_eq]; ring
  have hpow : (256 : Nat) ^ bs.length = 2 ^ (8 * bs.length) := by
    rw [show (256 : Nat) = 2 ^ 8 from by norm_num, ← Nat.pow_mul]
  have hblt : be_arith bs < 2 ^ (8 * bs.length) := by
    rw [← hpow]; exact be_arith_lt bs hb
  rw [be_accumulate_eq_arith bs hb, hsh,
      ← Nat.mul_add_lt_is_or hblt, hpow]
  ring_nf

theorem C9_read_accumulation_witness :
    (rx_run smRead2 [0x56, 0x78]).data
      = (smRead2.data <<< (8 * ([0x56, 0x78] : List Nat).length)
          ||| be_accumulate [0x56, 0x78]) % 2 ^ 32 ∧
    (rx_run smRead2 [0x56, 0x78]).data = 0x125678 := by
  refine ⟨C9_read_accumulation smRead2 [0x56, 0x78]
    (by decide) rfl (by decide) (by decide), ?_⟩
  decide

/-! ## Helper lemmas: the busy flag across interrupt handlers -/

/-- The ACK service routine never touches the busy flag. -/
theorem ack_preserves_busy (sm : I2C_STATE_MACHINE_STRUCT)
    (p : I2C_STATE_MACHINE_STRUCT × List Action)
    (hp : i2c_ack_sm sm = some p) : p.1.busy = sm.busy := by
  cases hcs : sm.current_state <;>
    simp only [i2c_ack_sm, hcs] at hp <;>
    first
      | exact Option.noConfusion hp
      | (split_ifs at hp <;>
          first
            | exact Option.noConfusion hp
            | (injection hp with h; subst h; rfl))

/-- The NACK service routine never touches the busy flag. -/
theorem nack_preserves_busy (sm : I2C_STATE_MACHINE_STRUCT)
    (p : I2C_STATE_MACHINE_STRUCT × List Action)
    (hp : i2c_nack_sm sm = some p) : p.1.busy = sm.busy := by
  unfold i2c_nack_sm at hp
  split_ifs at hp
  injection hp with h
  subst h
  rfl

/-- The byte-received service routine never touches the busy flag. -/
theorem rx_preserves_busy (sm : I2C_STATE_MACHINE_STRUCT) (b : Nat) :
    (i2c_rxdatav_sm sm b).1.busy = sm.busy := by
  unfold i2c_rxdatav_sm
  split_ifs <;> rfl

/-- A start call on a busy context spins: the step cannot proceed. -/
theorem step_start_busy (s : SysState) (req : I2C_START_STRUCT)
    (hb : s.sm.busy = true) : step s (SysEvent.startCall req) = none := by
  simp [step, i2c_start, hb]

/-- A successful start step: the context was free, is now busy, the `I2C_EM`
block count went up by one, and the emitted actions are the hardware START
followed by the device address with the write bit. -/
theorem step_start_some (s s2 : SysState) (req : I2C_START_STRUCT)
    (acts : List Action)
    (h : step s (SysEvent.startCall req) = some (s2, acts)) :
    s.sm.busy = false ∧ s2.sm.busy = true ∧
    s2.lowest_energy_mode I2C_EM = s.lowest_energy_mode I2C_EM + 1 ∧
    acts = [Action.cmdStart,
            Action.txdata (u32 (req.device_address <<< 1) ||| I2C_W)] := by
  simp only [step, i2c_start] at h
  split_ifs at h with hb hbl
  injection h with h1
  injection h1 with h2 h3
  subst h2
  subst h3
  refine ⟨by simpa using hb, rfl, ?_, rfl⟩
  simp [sleep_block_mode, Function.update_same]

/-- The only step that takes a busy context to a free one is the
stop-detected interrupt, and that step posts the completion event. -/
theorem step_busy_clear (s s2 : SysState) (e : SysEvent) (acts : List Action)
    (h : step s e = some (s2, acts)) (hb : s.sm.busy = true)
    (hb2 : s2.sm.busy = false) :
    e = SysEvent.irqMstop ∧
    Action.postEvent s.sm.finished_callback ∈ acts := by
  cases e with
  | startCall req =>
    rw [step_start_busy s req hb] at h
    exact Option.noConfusion h
  | irqAck =>
    simp only [step] at h
    cases hmap : i2c_ack_sm s.sm with
    | none => rw [hmap] at h; exact Option.noConfusion h
    | some p =>
      rw [hmap] at h
      have h' : some (({ s with sm := p.1 } : SysState), p.2)
          = some (s2, acts) := h
      injection h' with h1
      injection h1 with h2 h3
      have hb2' : p.1.busy = false := by rw [← h2] at hb2; exact hb2
      rw [ack_preserves_busy s.sm p hmap, hb] at hb2'
      exact Bool.noConfusion hb2'
  | irqNack =>
    simp only [step] at h
    cases hmap : i2c_nack_sm s.sm with
    | none => rw [hmap] at h; exact Option.noConfusion h
    | some p =>
      rw [hmap] at h
      have h' : some (({ s with sm := p.1 } : SysState), p.2)
          = some (s2, acts) := h
      injection h' with h1
      injection h1 with h2 h3
      have hb2' : p.1.busy = false := by rw [← h2] at hb2; exact hb2
      rw [nack_preserves_busy s.sm p hmap, hb] at hb2'
      exact Bool.noConfusion hb2'
  | irqRx b =>
    rcases hr : i2c_rxdatav_sm s.sm b with ⟨sm1, acts1⟩
    simp only [step, hr] at h
    injection h with h1
    injection h1 with h2 h3
    have hb1 : sm1.busy = s.sm.busy := by
      have hq := rx_preserves_busy s.sm b
      rw [hr] at hq
      exact hq
    have hb2' : sm1.busy = false := by rw [← h2] at hb2; exact hb2
    rw [hb1, hb] at hb2'
    exact Bool.noConfusion hb2'
  | irqMstop =>
    refine ⟨rfl, ?_⟩
    simp only [step, i2c_stop_sm] at h
    split_ifs at h
    injection h with h1
    injection h1 with h2 h3
    subst h3
    exact List.mem_singleton.mpr rfl

/-- Unfolding equation: a run over the empty occurrence list. -/
theorem run_nil (s : SysState) : run s [] = (s, []) := rfl

/-- Unfolding equation: a halted step ends the run. -/
theorem run_cons_none (s : SysState) (e : SysEvent) (rest : List SysEvent)
    (h : step s e = none) : run s (e :: rest) = (s, []) := by
  simp [run, h]

/-- Unfolding equation: a successful step prepends its trace entry. -/
theorem run_cons_some (s s2 : SysState) (e : SysEvent) (rest : List SysEvent)
    (acts : List Action) (h : step s e = some (s2, acts)) :
    run s (e :: rest)
      = ((run s2 rest).1, (e, acts) :: (run s2 rest).2) := by
  simp [run, h]

/-- From a busy context, any later successful start call in the run is
preceded, within the run, by a step that posts a completion event. -/
theorem run_busy_start_has_post (evs : List SysEvent) :
    ∀ (s : SysState), s.sm.busy = true →
      ∀ (l1 : List (SysEvent × List Action)) (r : I2C_START_STRUCT)
        (a : List Action) (l2 : List (SysEvent × List Action)),
        (run s evs).2 = l1 ++ (SysEvent.startCall r, a) :: l2 →
        ∃ x ∈ l1, ∃ c, Action.postEvent c ∈ x.2 := by
  induction evs with
  | nil =>
    intro s _ l1 r a l2 h
    have h2 : ([] : List (SysEvent × List Action))
        = l1 ++ (SysEvent.startCall r, a) :: l2 := h
    exact absurd h2.symm (List.append_ne_nil_of_right_ne_nil l1 (by simp))
  | cons e rest ih =>
    intro s hb l1 r a l2 h
    cases hstep : step s e with
    | none =>
      rw [run_cons_none s e rest hstep] at h
      have h2 : ([] : List (SysEvent × List Action))
          = l1 ++ (SysEvent.startCall r, a) :: l2 := h
      exact absurd h2.symm (List.append_ne_nil_of_right_ne_nil l1 (by simp))
    | some p =>
      obtain ⟨s2, acts⟩ := p
      rw [run_cons_some s s2 e rest acts hstep] at h
      have h2 : (e, acts) :: (run s2 rest).2
          = l1 ++ (SysEvent.startCall r, a) :: l2 := h
      cases l1 with
      | nil =>
        simp only [List.nil_append] at h2
        injection h2 with hhead htail
        injection hhead with he ha
        subst he
        rw [step_start_busy s r hb] at hstep
        exact Option.noConfusion hstep
      | cons x l1s =>
        simp only [List.cons_append] at h2
        injection h2 with hhead htail
        cases hb2 : s2.sm.busy with
        | true =>
          obtain ⟨y, hy, c, hc⟩ := ih s2 hb2 l1s r a l2 htail
          exact ⟨y, List.mem_cons_of_mem x hy, c, hc⟩
        | false =>
          have hclear := step_busy_clear s s2 e acts hstep hb hb2
          refine ⟨x, List.mem_cons_self x l1s,
                  s.sm.finished_callback, ?_⟩
          rw [← hhead]
          exact hclear.2

/-- Two successful start calls in one run always have a completion-event
post strictly between them. -/
theorem run_two_starts (evs : List SysEvent) :
    ∀ (s : SysState) (l1 : List (SysEvent × List Action))
      (r1 : I2C_START_STRUCT) (a1 : List Action)
      (l2 : List (SysEvent × List Action)) (r2 : I2C_START_STRUCT)
      (a2 : List Action) (l3 : List (SysEvent × List Action)),
      (run s evs).2 = l1 ++ (SysEvent.startCall r1, a1) :: l2
          ++ (SysEvent.startCall r2, a2) :: l3 →
      ∃ x ∈ l2, ∃ c, Action.postEvent c ∈ x.2 := by
  induction evs with
  | nil =>
    intro s l1 r1 a1 l2 r2 a2 l3 h
    have h2 : ([] : List (SysEvent × List Action))
        = l1 ++ (SysEvent.startCall r1, a1) :: l2
            ++ (SysEvent.startCall r2, a2) :: l3 := h
    rw [List.append_assoc] at h2
    exact absurd h2.symm (List.append_ne_nil_of_right_ne_nil l1 (by simp))
  | cons e rest ih =>
    intro s l1 r1 a1 l2 r2 a2 l3 h
    cases hstep : step s e with
    | none =>
      rw [run_cons_none s e rest hstep] at h
      have h2 : ([] : List (SysEvent × List Action))
          = l1 ++ (SysEvent.startCall r1, a1) :: l2
              ++ (SysEvent.startCall r2, a2) :: l3 := h
      rw [List.append_assoc] at h2
      exact absurd h2.symm (List.append_ne_nil_of_right_ne_nil l1 (by simp))
    | some p =>
      obtain ⟨s2, acts⟩ := p
      rw [run_cons_some s s2 e rest acts hstep] at h
      have h2 : (e, acts) :: (run s2 rest).2
          = l1 ++ (SysEvent.startCall r1, a1) :: l2
              ++ (SysEvent.startCall r2, a2) :: l3 := h
      cases l1 with
      | nil =>
        simp only [List.nil_append, List.cons_append] at h2
        injection h2 with hhead htail
        injection hhead with he ha
        subst he
        have hb2 : s2.sm.busy = true :=
          (step_start_some s s2 r1 acts hstep).2.1
        exact run_busy_start_has_post rest s2 hb2 l2 r2 a2 l3 htail
      | cons x l1s =>
        simp only [List.cons_append] at h2
        injection h2 with hhead htail
        exact ih s2 l1s r1 a1 l2 r2 a2 l3 htail

/-! ## Claim theorems: transaction-level properties -/

/-- C1: mutual exclusion on one bus.  A start call spins while the context is
busy; a successful start call finds the context free, blocks the I2C sleep
mode and marks the context busy in the very step that issues the hardware
START and address byte; the busy flag is cleared only by the stop-detected
step, which posts the completion event; hence in any run, between two
successful start calls a completion-event post always occurs. -/
theorem C1_mutual_exclusion :
    (∀ (s : SysState) (req : I2C_START_STRUCT),
      s.sm.busy = true → step s (SysEvent.startCall req) = none) ∧
    (∀ (s s2 : SysState) (req : I2C_START_STRUCT) (acts : List Action),
      step s (SysEvent.startCall req) = some (s2, acts) →
      s.sm.busy = false ∧ s2.sm.busy = true ∧
      s2.lowest_energy_mode I2C_EM = s.lowest_energy_mode I2C_EM + 1 ∧
      acts = [Action.cmdStart,
              Action.txdata (u32 (req.device_address <<< 1) ||| I2C_W)]) ∧
    (∀ (s s2 : SysState) (e : SysEvent) (acts : List Action),
      step s e = some (s2, acts) → s.sm.busy = true → s2.sm.busy = false →
      e = SysEvent.irqMstop ∧
      Action.postEvent s.sm.finished_callback ∈ acts) ∧
    (∀ (evs : List SysEvent) (s : SysState)
      (l1 : List (SysEvent × List Action)) (r1 : I2C_START_STRUCT)
      (a1 : List Action) (l2 : List (SysEvent × List Action))
      (r2 : I2C_START_STRUCT) (a2 : List Action)
      (l3 : List (SysEvent × List Action)),
      (run s evs).2 = l1 ++ (SysEvent.startCall r1, a1) :: l2
          ++ (SysEvent.startCall r2, a2) :: l3 →
      ∃ x ∈ l2, ∃ c, Action.postEvent c ∈ x.2) :=
  ⟨step_start_busy,
   step_start_some,
   step_busy_clear,
   fun evs s => run_two_starts evs s⟩

theorem C1_mutual_exclusion_witness :
    (step sysBusy (SysEvent.startCall reqA) = none) ∧
    (sys_init.sm.busy = false ∧ sysA1.sm.busy = true ∧
      sysA1.lowest_energy_mode I2C_EM
        = sys_init.lowest_energy_mode I2C_EM + 1 ∧
      [Action.cmdStart, Action.txdata 0x80]
        = [Action.cmdStart,
           Action.txdata (u32 (reqA.device_address <<< 1) ||| I2C_W)]) ∧
    (SysEvent.irqMstop = SysEvent.irqMstop ∧
      Action.postEvent sysSendStop.sm.finished_callback
        ∈ [Action.postEvent 0x10]) ∧
    (∃ x ∈ [(SysEvent.irqAck, [Action.txdata 0xE6]),
            (SysEvent.irqAck, [Action.txdata 0x3B]),
            (SysEvent.irqAck, [Action.cmdStop]),
            (SysEvent.irqMstop, [Action.postEvent 0x10])],
      ∃ c, Action.postEvent c ∈ x.2) :=
  ⟨C1_mutual_exclusion.1 sysBusy reqA rfl,
   C1_mutual_exclusion.2.1 sys_init sysA1 reqA
     [Action.cmdStart, Action.txdata 0x80] rfl,
   C1_mutual_exclusion.2.2.1 sysSendStop sysStopRes SysEvent.irqMstop
     [Action.postEvent 0x10] rfl rfl rfl,
   C1_mutual_exclusion.2.2.2 evsTwice sys_init []
     reqA [Action.cmdStart, Action.txdata 0x80]
     [(SysEvent.irqAck, [Action.txdata 0xE6]),
      (SysEvent.irqAck, [Action.txdata 0x3B]),
      (SysEvent.irqAck, [Action.cmdStop]),
      (SysEvent.irqMstop, [Action.postEvent 0x10])]
     reqA [Action.cmdStart, Action.txdata 0x80] [] (by decide)⟩

/-- C6: Scenario A.  Starting a 1-byte write of `0x3B` to 1-byte register
`0xE6` on device `0x40` transmits, in order, `0x80` (address with write
bit), `0xE6`, `0x3B`, then the STOP command; the completion event bit is
still clear before the stop-detected interrupt and is posted by it. -/
theorem C6_scenario_A_write :
    runActions sys_init evsA
      = [Action.cmdStart, Action.txdata 0x80, Action.txdata 0xE6,
         Action.txdata 0x3B, Action.cmdStop, Action.postEvent 0x10] ∧
    (run sys_init (evsA.take 4)).1.event_scheduled &&& 0x10 = 0 ∧
    (run sys_init evsA).1.event_scheduled &&& 0x10 = 0x10 := by
  refine ⟨?_, ?_, ?_⟩ <;> decide

end EFM32
